import Mathlib

set_option autoImplicit false

/-!
Shallow embedding of `lrcput.py` (repository Davide-Resigotti/lrcPut).

The script walks a directory with `os.walk`, collects files whose names end
with `.flac`, `.mp3` or `.m4a`, and for each one reads a sidecar `<stem>.lrc`
file, optionally skips files that already carry embedded lyrics (for MP3 the
skip check itself raises, since it reads `.tags` off a bare `ID3` object —
see `hasEmbeddedLyrics`), writes the lyric text into the container's tag (FLAC `LYRICS` vorbis comment, ID3 `USLT`
frame at dictionary key `USLT`, MP4 `©lyr` atom), optionally deletes the
sidecar afterwards, and renames the sidecar to `<name>.lrc.failed` when any
exception is raised for that file.

The file system is modelled explicitly: audio containers, sidecar text files
and injectable I/O failures (container load errors, save errors, UTF-8 decode
errors on the sidecar, `os.remove` errors) so that the exception-driven
control flow of the script (its single `try`/`except` block per file) can be
traced faithfully.  The mutagen tag library is treated, as in the original,
as a trusted dependency: loading yields the stored tag structure, saving
persists it, and a format/variant mismatch or an injected error surfaces as
an exception from the load or save call.
-/

/-! ### POSIX path helpers (`os.path.basename`, `dirname`, `join`, `splitext`) -/

/-- `os.path.basename p`: the part of `p` after the last `/`. -/
def basename (p : String) : String :=
  ⟨(p.data.reverse.takeWhile (fun c => c ≠ '/')).reverse⟩

/-- `os.path.dirname p`: everything before the last `/`, with trailing slashes
stripped unless the head consists only of slashes. -/
def dirname (p : String) : String :=
  let head := (p.data.reverse.dropWhile (fun c => c ≠ '/')).reverse
  if head ≠ [] ∧ ¬ head.all (fun c => c = '/') then
    ⟨(head.reverse.dropWhile (fun c => c = '/')).reverse⟩
  else ⟨head⟩

/-- `os.path.join a b` (POSIX): `b` if absolute, else `a`, a `/` separator
when `a` is nonempty and does not already end in `/`, then `b`. -/
def pathJoin (a b : String) : String :=
  if b.data.head? = some '/' then b
  else if a = "" ∨ a.data.getLast? = some '/' then ⟨a.data ++ b.data⟩
  else ⟨a.data ++ '/' :: b.data⟩

/-- Extension part of `os.path.splitext` on a basename (no `/` inside):
the part from the last `.`, provided some earlier character of the name is
not a dot (so `.mp3` and `..mp3` have no extension). -/
def splitextExtChars (cs : List Char) : List Char :=
  let rest := cs.dropWhile (fun c => c = '.')
  if rest.contains '.' then '.' :: (rest.reverse.takeWhile (fun c => c ≠ '.')).reverse
  else []

/-- Extension of a basename, as a string. -/
def splitextExt (s : String) : String := ⟨splitextExtChars s.data⟩

/-- Stem of a basename: the name with its `splitext` extension removed. -/
def splitextStem (s : String) : String :=
  ⟨s.data.take (s.data.length - (splitextExtChars s.data).length)⟩

/-- Python `str.lower` (ASCII case mapping suffices for the extensions used). -/
def strLower (s : String) : String := ⟨s.data.map Char.toLower⟩

/-- Python `str.endswith`: character-wise suffix test. -/
def strEndsWith (s sfx : String) : Bool := sfx.data.isSuffixOf s.data

/-- Line 48–49 of the script: sidecar path = `join(dirname(p), splitext(basename(p))[0] + ".lrc")`. -/
def lrcPathOf (p : String) : String :=
  pathJoin (dirname p) (splitextStem (basename p) ++ ".lrc")

/-- Line 50: `os.path.splitext(audio_path)[1].lower()`.  For a full path the
`splitext` extension is the extension of its basename, since the dot must come
after the last slash and the all-dots check only inspects basename characters. -/
def extOf (p : String) : String := strLower (splitextExt (basename p))

/-! ### File-system and container model -/

/-- An ID3 frame as stored in a mutagen `ID3` dictionary value.  `USLT` frames
carry an encoding, a language, a description and the lyric text. -/
structure ID3Frame where
  frameID : String
  encoding : Nat
  lang : String
  desc : String
  text : String
deriving DecidableEq, Repr

/-- The tag section of an audio container, per format.  FLAC vorbis comments
and MP4 atoms are key/value maps; an ID3 tag is a map from dictionary keys
(mutagen hash keys such as `USLT::eng`, or the literal key `USLT` the script
assigns) to frames. -/
inductive Container where
  | flac (tags : List (String × String))
  | mp3 (frames : List (String × ID3Frame))
  | m4a (tags : List (String × String))
deriving DecidableEq, Repr

/-- An audio file on disk: its container plus injectable library failures
(`loadErr`: the `FLAC`/`ID3`/`MP4` constructor raises; `saveErr`: `save()`
raises). -/
structure AudioData where
  container : Container
  loadErr : Option String
  saveErr : Option String
deriving DecidableEq, Repr

/-- A text file on disk (sidecar candidate): its content, plus an injectable
UTF-8 decode failure for `open(..., encoding='utf-8').read()`. -/
structure SidecarData where
  text : String
  readErr : Option String
deriving DecidableEq, Repr

/-- The file system: audio files and text files by full path, plus the paths
at which `os.remove` raises (with the exception message). -/
structure FS where
  audios : List (String × AudioData)
  texts : List (String × SidecarData)
  removeErr : List (String × String)
deriving DecidableEq, Repr

/-- Association-list lookup by key (first match). -/
def alGet {α : Type} (l : List (String × α)) (k : String) : Option α :=
  (l.find? (fun kv => kv.1 == k)).map (fun kv => kv.2)

/-- Association-list update: replace the binding of `k` (dictionary assignment). -/
def alSet {α : Type} (l : List (String × α)) (k : String) (v : α) : List (String × α) :=
  l.filter (fun kv => kv.1 != k) ++ [(k, v)]

/-- Association-list deletion. -/
def alRemove {α : Type} (l : List (String × α)) (k : String) : List (String × α) :=
  l.filter (fun kv => kv.1 != k)

/-- The three container formats the script dispatches on. -/
inductive Fmt where
  | flac
  | mp3
  | m4a
deriving DecidableEq, Repr

/-- The format chosen by the script's extension comparisons. -/
def extFmt (ext : String) : Option Fmt :=
  if ext = ".flac" then some .flac
  else if ext = ".mp3" then some .mp3
  else if ext = ".m4a" then some .m4a
  else none

/-- `FLAC(path)` / `ID3(path)` / `MP4(path)`: raises if the file is missing,
if a load error is injected, or if the stored container does not match the
requested format (e.g. `FLACNoHeaderError`). -/
def loadContainer (fs : FS) (p : String) (fmt : Fmt) : Except String Container :=
  match alGet fs.audios p with
  | none => .error "open failed"
  | some a =>
    match a.loadErr with
    | some m => .error m
    | none =>
      match fmt, a.container with
      | .flac, .flac t => .ok (.flac t)
      | .mp3, .mp3 fr => .ok (.mp3 fr)
      | .m4a, .m4a t => .ok (.m4a t)
      | _, _ => .error "invalid header"

/-- Lines 59–64: the skip branch loads the container for a recognized
extension and otherwise leaves `audio = None`. -/
def skipLoad (fs : FS) (p ext : String) : Except String (Option Container) :=
  match extFmt ext with
  | some fmt => (loadContainer fs p fmt).map some
  | none => .ok none

/-- The exception message of the MP3 branch of `has_embedded_lyrics`: the
`audio` passed there is a bare mutagen `ID3` object (the tag dictionary
itself, constructed on line 62), which has no `tags` attribute — only
`FileType` wrappers such as `FLAC` and `MP4` define one — so evaluating
`audio.tags` raises before any frame is inspected. -/
def id3TagsAttributeError : String := "AttributeError: ID3 object has no attribute tags"

/-- Lines 21–29, `has_embedded_lyrics(audio, file_extension)`: FLAC checks the
`LYRICS` key (`'LYRICS' in audio` on the `FLAC` file object), M4A the `©lyr`
atom via `audio.tags`; the MP3 branch evaluates `audio.tags.values()` on a
bare `ID3` object, which raises `AttributeError` before any `FrameID` is
compared; any other extension returns `False`. -/
def hasEmbeddedLyrics (audio : Option Container) (ext : String) : Except String Bool :=
  if ext = ".flac" then
    match audio with
    | some (.flac tags) => .ok (alGet tags "LYRICS").isSome
    | _ => .ok false
  else if ext = ".m4a" then
    match audio with
    | some (.m4a tags) => .ok (alGet tags "©lyr").isSome
    | _ => .ok false
  else if ext = ".mp3" then .error id3TagsAttributeError
  else .ok false

/-- `audio.save()`: raises when a save error is injected, else persists the
mutated container back to the file. -/
def saveAudio (fs : FS) (p : String) (c : Container) : Except String FS :=
  match alGet fs.audios p with
  | none => .error "save failed"
  | some a =>
    match a.saveErr with
    | some m => .error m
    | none => .ok { fs with audios := alSet fs.audios p { a with container := c } }

/-- Defaults of the mutagen `USLT` constructor for the fields the script does
not pass (`USLT(encoding=3, text=lyrics)`); the spec describes them as empty
language/description keys. -/
def usltDefaultLang : String := ""

/-- Default description of a `USLT` frame the script constructs. -/
def usltDefaultDesc : String := ""

/-- Line 78: `USLT(encoding=3, text=lyrics)`. -/
def mkUSLT (lyrics : String) : ID3Frame :=
  { frameID := "USLT", encoding := 3, lang := usltDefaultLang,
    desc := usltDefaultDesc, text := lyrics }

/-- Lines 72–83: load the container fresh for the matching extension, assign
the lyrics tag (`audio['LYRICS']`, `audio['USLT']`, `audio.tags['©lyr']`) and
save; with an unrecognized extension none of the branches run and nothing is
written. -/
def embedStep (fs : FS) (p ext lyrics : String) : Except String FS :=
  if ext = ".flac" then
    match loadContainer fs p .flac with
    | .error m => .error m
    | .ok (.flac tags) => saveAudio fs p (.flac (alSet tags "LYRICS" lyrics))
    | .ok _ => .error "invalid header"
  else if ext = ".mp3" then
    match loadContainer fs p .mp3 with
    | .error m => .error m
    | .ok (.mp3 frames) => saveAudio fs p (.mp3 (alSet frames "USLT" (mkUSLT lyrics)))
    | .ok _ => .error "invalid header"
  else if ext = ".m4a" then
    match loadContainer fs p .m4a with
    | .error m => .error m
    | .ok (.m4a tags) => saveAudio fs p (.m4a (alSet tags "©lyr" lyrics))
    | .ok _ => .error "invalid header"
  else .ok fs

/-- `os.remove(p)`: raises when a removal error is injected at `p` or the file
is absent, else deletes it. -/
def removeFile (fs : FS) (p : String) : Except String FS :=
  match alGet fs.removeErr p with
  | some m => .error m
  | none =>
    if (alGet fs.texts p).isSome then .ok { fs with texts := alRemove fs.texts p }
    else .error "no such file"

/-- The body of the script's `try` block (lines 53–91) for one audio file with
an existing sidecar.  Errors carry the exception message, the value of the
`embedded_lyrics_files` increment that has already happened (the counter is
incremented on line 85 before `os.remove` can raise on line 90) and the file
system at the moment the exception is raised. -/
def runTry (skipExisting reduceLrc : Bool) (fs : FS) (p lrcPath ext : String)
    (sd : SidecarData) : Except (String × Nat × FS) (Nat × FS) :=
  match sd.readErr with
  | some m => .error (m, 0, fs)
  | none =>
    let lyrics := sd.text
    match (if skipExisting then
            (skipLoad fs p ext).bind (fun audio => hasEmbeddedLyrics audio ext)
          else .ok false : Except String Bool) with
    | .error m => .error (m, 0, fs)
    | .ok true => .ok (0, fs)
    | .ok false =>
      match embedStep fs p ext lyrics with
      | .error m => .error (m, 0, fs)
      | .ok fs1 =>
        if reduceLrc then
          match removeFile fs1 lrcPath with
          | .error m => .error (m, 1, fs1)
          | .ok fs2 => .ok (1, fs2)
        else .ok (1, fs1)

/-- The net effect of processing one audio file: the increment applied to
`embedded_lyrics_files`, the name appended to `failed_files` (if any), and the
resulting file system. -/
structure FileResult where
  embeddedInc : Nat
  failedName : Option String
  fs : FS
deriving DecidableEq, Repr

/-- Line 97–98: inside the `except` handler, if the sidecar still exists it is
renamed by appending `.failed` (`shutil.move` overwrites an existing target). -/
def renameToFailed (fs : FS) (lrcPath : String) : FS :=
  match alGet fs.texts lrcPath with
  | some v => { fs with texts := alSet (alRemove fs.texts lrcPath) (lrcPath ++ ".failed") v }
  | none => fs

/-- One iteration of the per-file loop (lines 46–100): compute the sidecar
path and lowercased extension, do nothing when the sidecar is absent, run the
`try` body otherwise, and on exception append the basename to the failed list
and rename the surviving sidecar. -/
def processFile (skipExisting reduceLrc : Bool) (fs : FS) (audioPath : String) : FileResult :=
  let file := basename audioPath
  let lrcPath := lrcPathOf audioPath
  let ext := extOf audioPath
  match alGet fs.texts lrcPath with
  | none => ⟨0, none, fs⟩
  | some sd =>
    match runTry skipExisting reduceLrc fs audioPath lrcPath ext sd with
    | .ok (inc, fs1) => ⟨inc, none, fs1⟩
    | .error (_, inc, fs1) => ⟨inc, some file, renameToFailed fs1 lrcPath⟩

/-! ### Directory traversal and the batch loop -/

/-- A directory's content: files and named subdirectories, in `os.walk` order. -/
inductive DirTree where
  | node (files : List String) (subdirs : List (String × DirTree))
deriving Repr

/-- Line 38: `file.endswith(('.flac', '.mp3', '.m4a'))` (case-sensitive). -/
def selectAudio (f : String) : Bool :=
  strEndsWith f ".flac" || strEndsWith f ".mp3" || strEndsWith f ".m4a"

mutual

/-- Lines 36–39: `os.walk` (top-down) collects every selected file, joined to
its directory; subdirectories are always traversed. -/
def walkCollect (root : String) : DirTree → List String
  | .node files subdirs =>
    files.filterMap (fun f => if selectAudio f then some (pathJoin root f) else none)
      ++ walkCollectDirs root subdirs

/-- Traversal of a list of subdirectories, in order. -/
def walkCollectDirs (root : String) : List (String × DirTree) → List String
  | [] => []
  | (name, t) :: rest => walkCollect (pathJoin root name) t ++ walkCollectDirs root rest

end

/-- Accumulated state of the loop of lines 45–100: the embedded counter, the
failed list (in order) and the file system. -/
structure RunResult where
  embedded : Nat
  failed : List String
  fs : FS
deriving DecidableEq, Repr

/-- The per-file loop over the collected audio files. -/
def runBatch (skipExisting reduceLrc : Bool) : List String → FS → RunResult
  | [], fs => ⟨0, [], fs⟩
  | p :: rest, fs =>
    let r := processFile skipExisting reduceLrc fs p
    let tailR := runBatch skipExisting reduceLrc rest r.fs
    ⟨r.embeddedInc + tailR.embedded, r.failedName.toList ++ tailR.failed, tailR.fs⟩

/-- What `embed_lrc` returns (line 102), plus the final file system so that
the effects can be stated. -/
structure BatchResult where
  total : Nat
  embedded : Nat
  failed : List String
  fs : FS
deriving DecidableEq, Repr

/-- `embed_lrc(directory, skip_existing, reduce_lrc, recursive)` (lines 31–102).
The `recursive` argument is accepted exactly as in the source, where it is
never read. -/
def embedLrc (directory : String) (skipExisting reduceLrc recursive : Bool)
    (tree : DirTree) (fs : FS) : BatchResult :=
  let audioFiles := walkCollect directory tree
  let r := runBatch skipExisting reduceLrc audioFiles fs
  ⟨audioFiles.length, r.embedded, r.failed, r.fs⟩

/-- Line 121: `percentage = (embedded / total) * 100 if total > 0 else 0`. -/
def reportPercentage (total embedded : Nat) : Rat :=
  if total > 0 then ((embedded : Rat) / (total : Rat)) * 100 else 0

/-- The lyrics tag of a container: the `LYRICS` vorbis comment, the text of
the `USLT` frame the script writes (dictionary key `USLT`), or the `©lyr`
atom. -/
def lyricsOfContainer : Container → Option String
  | .flac tags => alGet tags "LYRICS"
  | .mp3 frames => (alGet frames "USLT").map (fun fr => fr.text)
  | .m4a tags => alGet tags "©lyr"

/-- Re-reading the lyrics tag of the container stored at `p`. -/
def readLyricsTag (fs : FS) (p : String) : Option String :=
  match alGet fs.audios p with
  | none => none
  | some a => lyricsOfContainer a.container

/-! ### Derived observers used in the statements -/

/-- The format of a stored container. -/
def containerFmt : Container → Fmt
  | .flac _ => .flac
  | .mp3 _ => .mp3
  | .m4a _ => .m4a

/-- Number of lyrics frames (frames whose `FrameID` is `USLT`) in the ID3
dictionary of the audio stored at `p`; `0` for other formats or a missing file. -/
def usltFrameCount (fs : FS) (p : String) : Nat :=
  match alGet fs.audios p with
  | some a =>
    match a.container with
    | .mp3 frames => frames.countP (fun kv => kv.2.frameID == "USLT")
    | _ => 0
  | none => 0

/-- The skip check lets the file through to the embedding branches: either the
option is off, or the loaded container carries no embedded lyrics. -/
def skipFallthrough (sk : Bool) (fs : FS) (p : String) : Prop :=
  sk = false ∨ ∃ audio, skipLoad fs p (extOf p) = .ok audio ∧
    hasEmbeddedLyrics audio (extOf p) = .ok false

/-- A file is inert for a skip-enabled run: processing it cannot reach a
successful embed (no sidecar, unreadable sidecar, load failure, lyrics already
present, or a write that fails). -/
def inertF (fs : FS) (p : String) : Bool :=
  match alGet fs.texts (lrcPathOf p) with
  | none => true
  | some sd =>
    match sd.readErr with
    | some _ => true
    | none =>
      match skipLoad fs p (extOf p) with
      | .error _ => true
      | .ok audio =>
        match hasEmbeddedLyrics audio (extOf p) with
        | .error _ => true
        | .ok true => true
        | .ok false =>
          match embedStep fs p (extOf p) sd.text with
          | .error _ => true
          | .ok _ => false

/-! ### Association-list lemmas -/

theorem find?_filter_ne {α : Type} (l : List (String × α)) (k : String) :
    (l.filter (fun kv => kv.1 != k)).find? (fun kv => kv.1 == k) = none := by
  rw [List.find?_eq_none]
  intro kv hkv
  have h := List.of_mem_filter hkv
  simp only [bne_iff_ne, ne_eq] at h
  simp [h]

theorem find?_filter_ne_other {α : Type} (l : List (String × α)) (k k' : String) (h : k' ≠ k) :
    (l.filter (fun kv => kv.1 != k)).find? (fun kv => kv.1 == k') =
      l.find? (fun kv => kv.1 == k') := by
  induction l with
  | nil => rfl
  | cons kv rest ih =>
    have hkk' : (k == k') = false := beq_eq_false_iff_ne.mpr (Ne.symm h)
    by_cases hk : kv.1 = k
    · have hclash : (kv.1 == k') = false := by
        simp only [beq_eq_false_iff_ne, ne_eq]
        intro e
        exact h (e ▸ hk)
      simp [List.filter_cons, hk, List.find?_cons, hclash, hkk', ih]
    · by_cases hk' : kv.1 = k'
      · simp [List.filter_cons, hk, List.find?_cons, hk', h, hkk']
      · simp [List.filter_cons, hk, List.find?_cons, hk', h, hkk', ih]

theorem alGet_alSet_self {α : Type} (l : List (String × α)) (k : String) (v : α) :
    alGet (alSet l k v) k = some v := by
  unfold alGet alSet
  rw [List.find?_append, find?_filter_ne]
  simp [List.find?_cons]

theorem alGet_alSet_ne {α : Type} (l : List (String × α)) (k k' : String) (v : α) (h : k' ≠ k) :
    alGet (alSet l k v) k' = alGet l k' := by
  unfold alGet alSet
  rw [List.find?_append, find?_filter_ne_other l k k' h]
  cases hf : l.find? (fun kv => kv.1 == k') with
  | some x => simp
  | none =>
    have : (k == k') = false := by
      simp only [beq_eq_false_iff_ne, ne_eq]
      exact fun e => h e.symm
    simp [List.find?_cons, this]

theorem alGet_alRemove_self {α : Type} (l : List (String × α)) (k : String) :
    alGet (alRemove l k) k = none := by
  unfold alGet alRemove
  rw [find?_filter_ne]
  rfl

theorem alGet_alRemove_ne {α : Type} (l : List (String × α)) (k k' : String) (h : k' ≠ k) :
    alGet (alRemove l k) k' = alGet l k' := by
  unfold alGet alRemove
  rw [find?_filter_ne_other l k k' h]

/-! ### String and path lemmas -/

theorem strEndsWith_iff (s sfx : String) : strEndsWith s sfx = true ↔ sfx.data <:+ s.data := by
  simp [strEndsWith]

theorem strEndsWith_pathJoin (a b s : String) (h : strEndsWith b s = true) :
    strEndsWith (pathJoin a b) s = true := by
  rw [strEndsWith_iff] at h ⊢
  unfold pathJoin
  split
  · exact h
  · split
    · exact h.trans (List.suffix_append _ _)
    · exact h.trans ((List.suffix_cons '/' b.data).trans (List.suffix_append a.data ('/' :: b.data)))

theorem lrcPathOf_endsWith (p : String) : strEndsWith (lrcPathOf p) ".lrc" = true := by
  unfold lrcPathOf
  apply strEndsWith_pathJoin
  rw [strEndsWith_iff, String.data_append]
  exact List.suffix_append _ _

theorem ne_of_failed_of_lrc (x y : String) (h : strEndsWith y ".lrc" = true) :
    x ++ ".failed" ≠ y := by
  intro e
  rw [strEndsWith_iff] at h
  obtain ⟨t, ht⟩ := h
  have hd : (x ++ ".failed").data = y.data := congrArg String.data e
  rw [String.data_append] at hd
  have h1 : (x.data ++ ".failed".data).getLast? = some 'd' := by
    rw [List.getLast?_append_of_ne_nil _ (by decide)]
    decide
  have h2 : y.data.getLast? = some 'c' := by
    rw [← ht, List.getLast?_append_of_ne_nil _ (by decide)]
    decide
  rw [hd, h2] at h1
  exact absurd h1 (by decide)

theorem ne_append_failed (x : String) : x ≠ x ++ ".failed" := by
  intro e
  have hlen : x.data.length = x.data.length + ".failed".data.length := by
    conv_lhs => rw [e]
    rw [String.data_append, List.length_append]
  have h7 : (".failed" : String).data.length = 7 := rfl
  rw [h7] at hlen
  omega

/-! ### Effect lemmas for the file-system operations -/

theorem renameToFailed_audios (fs : FS) (l : String) :
    (renameToFailed fs l).audios = fs.audios := by
  unfold renameToFailed
  cases alGet fs.texts l <;> rfl

theorem renameToFailed_removeErr (fs : FS) (l : String) :
    (renameToFailed fs l).removeErr = fs.removeErr := by
  unfold renameToFailed
  cases alGet fs.texts l <;> rfl

theorem renameToFailed_get_self (fs : FS) (l : String) :
    alGet (renameToFailed fs l).texts l = none := by
  unfold renameToFailed
  cases h : alGet fs.texts l with
  | none => exact h
  | some v =>
    show alGet (alSet (alRemove fs.texts l) (l ++ ".failed") v) l = none
    rw [alGet_alSet_ne _ _ _ _ (ne_append_failed l), alGet_alRemove_self]

theorem renameToFailed_get_failed (fs : FS) (l : String) (v : SidecarData)
    (h : alGet fs.texts l = some v) :
    alGet (renameToFailed fs l).texts (l ++ ".failed") = some v := by
  unfold renameToFailed
  rw [h]
  exact alGet_alSet_self _ _ _

theorem renameToFailed_get_other (fs : FS) (l k : String) (hk1 : k ≠ l)
    (hk2 : k ≠ l ++ ".failed") :
    alGet (renameToFailed fs l).texts k = alGet fs.texts k := by
  unfold renameToFailed
  cases h : alGet fs.texts l with
  | none => rfl
  | some v =>
    show alGet (alSet (alRemove fs.texts l) (l ++ ".failed") v) k = alGet fs.texts k
    rw [alGet_alSet_ne _ _ _ _ hk2, alGet_alRemove_ne _ _ _ hk1]

theorem removeFile_ok_inv (fs fs' : FS) (p : String) (h : removeFile fs p = .ok fs') :
    fs'.audios = fs.audios ∧ fs'.removeErr = fs.removeErr ∧
      fs'.texts = alRemove fs.texts p := by
  unfold removeFile at h
  cases hrm : alGet fs.removeErr p with
  | some m => rw [hrm] at h; exact absurd h (by simp)
  | none =>
    rw [hrm] at h
    by_cases hex : (alGet fs.texts p).isSome
    · rw [if_pos hex] at h
      cases h
      exact ⟨rfl, rfl, rfl⟩
    · rw [if_neg hex] at h
      exact absurd h (by simp)

theorem loadContainer_ok_inv (fs : FS) (p : String) (fmt : Fmt) (c : Container)
    (h : loadContainer fs p fmt = .ok c) :
    ∃ a, alGet fs.audios p = some a ∧ a.loadErr = none ∧ c = a.container ∧
      containerFmt c = fmt := by
  unfold loadContainer at h
  split at h
  · exact absurd h (by simp)
  next a ha =>
    split at h
    · exact absurd h (by simp)
    next hl =>
      split at h
      next t hct =>
        injection h with hc
        subst hc
        exact ⟨a, ha, hl, hct.symm ▸ rfl, rfl⟩
      next fr hct =>
        injection h with hc
        subst hc
        exact ⟨a, ha, hl, hct.symm ▸ rfl, rfl⟩
      next t hct =>
        injection h with hc
        subst hc
        exact ⟨a, ha, hl, hct.symm ▸ rfl, rfl⟩
      · exact absurd h (by simp)

theorem loadContainer_ok_of (fs : FS) (p : String) (fmt : Fmt) (a : AudioData)
    (ha : alGet fs.audios p = some a) (hl : a.loadErr = none)
    (hf : containerFmt a.container = fmt) :
    loadContainer fs p fmt = .ok a.container := by
  unfold loadContainer
  cases hc : a.container with
  | flac t =>
    rw [hc] at hf
    simp only [containerFmt] at hf
    subst hf
    simp [ha, hl, hc]
  | mp3 fr =>
    rw [hc] at hf
    simp only [containerFmt] at hf
    subst hf
    simp [ha, hl, hc]
  | m4a t =>
    rw [hc] at hf
    simp only [containerFmt] at hf
    subst hf
    simp [ha, hl, hc]

theorem saveAudio_ok_inv (fs : FS) (p : String) (c : Container) (fs1 : FS)
    (h : saveAudio fs p c = .ok fs1) :
    ∃ a, alGet fs.audios p = some a ∧ a.saveErr = none ∧
      fs1 = { fs with audios := alSet fs.audios p { a with container := c } } := by
  unfold saveAudio at h
  split at h
  · exact absurd h (by simp)
  next a ha =>
    split at h
    · exact absurd h (by simp)
    next hs =>
      injection h with h
      exact ⟨a, ha, hs, h.symm⟩

theorem embedStep_ok_inv (fs fs1 : FS) (p ext ly : String)
    (h : embedStep fs p ext ly = .ok fs1) :
    (extFmt ext = none ∧ fs1 = fs) ∨
    (∃ a c, alGet fs.audios p = some a ∧ a.loadErr = none ∧ a.saveErr = none ∧
      fs1 = { fs with audios := alSet fs.audios p { a with container := c } } ∧
      (hasEmbeddedLyrics (some c) ext = .ok true ∨
        hasEmbeddedLyrics (some c) ext = .error id3TagsAttributeError) ∧
      lyricsOfContainer c = some ly ∧
      (∀ fmt, extFmt ext = some fmt → containerFmt c = fmt)) := by
  unfold embedStep at h
  split at h
  next h1 =>
    subst h1
    right
    split at h
    · exact absurd h (by simp)
    next tags hlc =>
      obtain ⟨a, ha, hl, hc, hf⟩ := loadContainer_ok_inv _ _ _ _ hlc
      obtain ⟨a', ha', hs, hfs⟩ := saveAudio_ok_inv _ _ _ _ h
      rw [ha] at ha'
      injection ha' with haa
      subst haa
      refine ⟨a, .flac (alSet tags "LYRICS" ly), ha, hl, hs, hfs, ?_, ?_, ?_⟩
      · exact Or.inl (by simp [hasEmbeddedLyrics, alGet_alSet_self])
      · simp [lyricsOfContainer, alGet_alSet_self]
      · intro fmt hfmt
        have he : extFmt ".flac" = some Fmt.flac := by decide
        rw [he] at hfmt
        injection hfmt with hfmt
    · exact absurd h (by simp)
  next h1 =>
    split at h
    next h2 =>
      subst h2
      right
      split at h
      · exact absurd h (by simp)
      next frames hlc =>
        obtain ⟨a, ha, hl, hc, hf⟩ := loadContainer_ok_inv _ _ _ _ hlc
        obtain ⟨a', ha', hs, hfs⟩ := saveAudio_ok_inv _ _ _ _ h
        rw [ha] at ha'
        injection ha' with haa
        subst haa
        refine ⟨a, .mp3 (alSet frames "USLT" (mkUSLT ly)), ha, hl, hs, hfs, ?_, ?_, ?_⟩
        · exact Or.inr (by simp [hasEmbeddedLyrics])
        · simp [lyricsOfContainer, alGet_alSet_self, mkUSLT]
        · intro fmt hfmt
          have he : extFmt ".mp3" = some Fmt.mp3 := by decide
          rw [he] at hfmt
          injection hfmt with hfmt
      · exact absurd h (by simp)
    next h2 =>
      split at h
      next h3 =>
        subst h3
        right
        split at h
        · exact absurd h (by simp)
        next tags hlc =>
          obtain ⟨a, ha, hl, hc, hf⟩ := loadContainer_ok_inv _ _ _ _ hlc
          obtain ⟨a', ha', hs, hfs⟩ := saveAudio_ok_inv _ _ _ _ h
          rw [ha] at ha'
          injection ha' with haa
          subst haa
          refine ⟨a, .m4a (alSet tags "©lyr" ly), ha, hl, hs, hfs, ?_, ?_, ?_⟩
          · exact Or.inl (by simp [hasEmbeddedLyrics, alGet_alSet_self])
          · simp [lyricsOfContainer, alGet_alSet_self]
          · intro fmt hfmt
            have he : extFmt ".m4a" = some Fmt.m4a := by decide
            rw [he] at hfmt
            injection hfmt with hfmt
        · exact absurd h (by simp)
      next h3 =>
        left
        injection h with h
        exact ⟨by simp [extFmt, h1, h2, h3], h.symm⟩

theorem embedStep_ok_frame (fs fs1 : FS) (p ext ly : String)
    (h : embedStep fs p ext ly = .ok fs1) :
    fs1.texts = fs.texts ∧ fs1.removeErr = fs.removeErr := by
  rcases embedStep_ok_inv _ _ _ _ _ h with ⟨_, rfl⟩ | ⟨a, c, _, _, _, rfl, _, _, _⟩ <;>
    exact ⟨rfl, rfl⟩

/-! ### A complete case analysis of the per-file workflow -/

/-- The possible runs of `processFile` on one audio file, with the branch
conditions that select them and the exact result they produce. -/
inductive PFView (sk rd : Bool) (fs : FS) (p : String) : FileResult → Prop where
  | noSidecar :
      alGet fs.texts (lrcPathOf p) = none →
      PFView sk rd fs p ⟨0, none, fs⟩
  | readFail (sd : SidecarData) (m : String) :
      alGet fs.texts (lrcPathOf p) = some sd → sd.readErr = some m →
      PFView sk rd fs p ⟨0, some (basename p), renameToFailed fs (lrcPathOf p)⟩
  | skipLoadFail (sd : SidecarData) (m : String) :
      alGet fs.texts (lrcPathOf p) = some sd → sd.readErr = none →
      sk = true → skipLoad fs p (extOf p) = .error m →
      PFView sk rd fs p ⟨0, some (basename p), renameToFailed fs (lrcPathOf p)⟩
  | skipCheckFail (sd : SidecarData) (audio : Option Container) (m : String) :
      alGet fs.texts (lrcPathOf p) = some sd → sd.readErr = none →
      sk = true → skipLoad fs p (extOf p) = .ok audio →
      hasEmbeddedLyrics audio (extOf p) = .error m →
      PFView sk rd fs p ⟨0, some (basename p), renameToFailed fs (lrcPathOf p)⟩
  | skipped (sd : SidecarData) (audio : Option Container) :
      alGet fs.texts (lrcPathOf p) = some sd → sd.readErr = none →
      sk = true → skipLoad fs p (extOf p) = .ok audio →
      hasEmbeddedLyrics audio (extOf p) = .ok true →
      PFView sk rd fs p ⟨0, none, fs⟩
  | embedFail (sd : SidecarData) (m : String) :
      alGet fs.texts (lrcPathOf p) = some sd → sd.readErr = none →
      skipFallthrough sk fs p →
      embedStep fs p (extOf p) sd.text = .error m →
      PFView sk rd fs p ⟨0, some (basename p), renameToFailed fs (lrcPathOf p)⟩
  | embedded (sd : SidecarData) (fs1 : FS) :
      alGet fs.texts (lrcPathOf p) = some sd → sd.readErr = none →
      skipFallthrough sk fs p →
      embedStep fs p (extOf p) sd.text = .ok fs1 → rd = false →
      PFView sk rd fs p ⟨1, none, fs1⟩
  | embeddedReduced (sd : SidecarData) (fs1 fs2 : FS) :
      alGet fs.texts (lrcPathOf p) = some sd → sd.readErr = none →
      skipFallthrough sk fs p →
      embedStep fs p (extOf p) sd.text = .ok fs1 → rd = true →
      removeFile fs1 (lrcPathOf p) = .ok fs2 →
      PFView sk rd fs p ⟨1, none, fs2⟩
  | removeFail (sd : SidecarData) (fs1 : FS) (m : String) :
      alGet fs.texts (lrcPathOf p) = some sd → sd.readErr = none →
      skipFallthrough sk fs p →
      embedStep fs p (extOf p) sd.text = .ok fs1 → rd = true →
      removeFile fs1 (lrcPathOf p) = .error m →
      PFView sk rd fs p ⟨1, some (basename p), renameToFailed fs1 (lrcPathOf p)⟩

/-- After the read succeeded and the skip check fell through, `runTry` is the
embed-then-reduce tail. -/
theorem runTry_embed_eq (sk rd : Bool) (fs : FS) (p lrc ext : String) (sd : SidecarData)
    (hre : sd.readErr = none)
    (hsk : (if sk then (skipLoad fs p ext).bind (fun audio => hasEmbeddedLyrics audio ext)
            else .ok false : Except String Bool) = .ok false) :
    runTry sk rd fs p lrc ext sd =
      (match embedStep fs p ext sd.text with
       | .error m => .error (m, 0, fs)
       | .ok fs1 =>
         if rd then
           match removeFile fs1 lrc with
           | .error m => .error (m, 1, fs1)
           | .ok fs2 => .ok (1, fs2)
         else .ok (1, fs1)) := by
  unfold runTry
  rw [hre, hsk]

theorem processFile_view (sk rd : Bool) (fs : FS) (p : String) :
    PFView sk rd fs p (processFile sk rd fs p) := by
  cases hsd : alGet fs.texts (lrcPathOf p) with
  | none =>
    have hpf : processFile sk rd fs p = ⟨0, none, fs⟩ := by
      simp only [processFile]
      rw [hsd]
    rw [hpf]
    exact .noSidecar hsd
  | some sd =>
    have hpf : processFile sk rd fs p =
        (match runTry sk rd fs p (lrcPathOf p) (extOf p) sd with
         | .ok (inc, fs1) => ⟨inc, none, fs1⟩
         | .error (_, inc, fs1) => ⟨inc, some (basename p), renameToFailed fs1 (lrcPathOf p)⟩) := by
      simp only [processFile]
      rw [hsd]
    cases hre : sd.readErr with
    | some m =>
      have hrt : runTry sk rd fs p (lrcPathOf p) (extOf p) sd = .error (m, 0, fs) := by
        unfold runTry
        rw [hre]
      rw [hpf, hrt]
      exact .readFail sd m hsd hre
    | none =>
      cases sk with
      | true =>
        cases hsl : skipLoad fs p (extOf p) with
        | error m =>
          have hrt : runTry true rd fs p (lrcPathOf p) (extOf p) sd = .error (m, 0, fs) := by
            unfold runTry
            rw [hre]
            simp [hsl, Except.bind]
          rw [hpf, hrt]
          exact .skipLoadFail sd m hsd hre rfl hsl
        | ok audio =>
          cases hhe : hasEmbeddedLyrics audio (extOf p) with
          | error m =>
            have hrt : runTry true rd fs p (lrcPathOf p) (extOf p) sd = .error (m, 0, fs) := by
              unfold runTry
              rw [hre]
              simp [hsl, hhe, Except.bind]
            rw [hpf, hrt]
            exact .skipCheckFail sd audio m hsd hre rfl hsl hhe
          | ok b =>
            cases b with
            | true =>
              have hrt : runTry true rd fs p (lrcPathOf p) (extOf p) sd = .ok (0, fs) := by
                unfold runTry
                rw [hre]
                simp [hsl, hhe, Except.bind]
              rw [hpf, hrt]
              exact .skipped sd audio hsd hre rfl hsl hhe
            | false =>
              have hsk : (if true then (skipLoad fs p (extOf p)).bind
                    (fun audio => hasEmbeddedLyrics audio (extOf p))
                  else .ok false : Except String Bool) = .ok false := by
                simp [hsl, hhe, Except.bind]
              have hft : skipFallthrough true fs p := .inr ⟨audio, hsl, hhe⟩
              rw [hpf, runTry_embed_eq true rd fs p (lrcPathOf p) (extOf p) sd hre hsk]
              cases hes : embedStep fs p (extOf p) sd.text with
              | error m => simpa [hes] using PFView.embedFail sd m hsd hre hft hes
              | ok fs1 =>
                cases rd with
                | false => simpa [hes] using PFView.embedded sd fs1 hsd hre hft hes rfl
                | true =>
                  cases hrm : removeFile fs1 (lrcPathOf p) with
                  | error m =>
                    simpa [hes, hrm] using PFView.removeFail sd fs1 m hsd hre hft hes rfl hrm
                  | ok fs2 =>
                    simpa [hes, hrm] using PFView.embeddedReduced sd fs1 fs2 hsd hre hft hes rfl hrm
      | false =>
        have hsk : (if false then (skipLoad fs p (extOf p)).bind
              (fun audio => hasEmbeddedLyrics audio (extOf p))
            else .ok false : Except String Bool) = .ok false := rfl
        have hft : skipFallthrough false fs p := .inl rfl
        rw [hpf, runTry_embed_eq false rd fs p (lrcPathOf p) (extOf p) sd hre hsk]
        cases hes : embedStep fs p (extOf p) sd.text with
        | error m => simpa [hes] using PFView.embedFail sd m hsd hre hft hes
        | ok fs1 =>
          cases rd with
          | false => simpa [hes] using PFView.embedded sd fs1 hsd hre hft hes rfl
          | true =>
            cases hrm : removeFile fs1 (lrcPathOf p) with
            | error m => simpa [hes, hrm] using PFView.removeFail sd fs1 m hsd hre hft hes rfl hrm
            | ok fs2 => simpa [hes, hrm] using PFView.embeddedReduced sd fs1 fs2 hsd hre hft hes rfl hrm

/-! ### Reading back the lyrics tag -/

theorem readLyricsTag_congr (fs fs' : FS) (p : String) (h : fs'.audios = fs.audios) :
    readLyricsTag fs' p = readLyricsTag fs p := by
  unfold readLyricsTag
  rw [h]

theorem readLyricsTag_embedStep (fs fs1 : FS) (p ext ly : String)
    (hext : ext = ".flac" ∨ ext = ".mp3" ∨ ext = ".m4a")
    (h : embedStep fs p ext ly = .ok fs1) :
    readLyricsTag fs1 p = some ly := by
  rcases embedStep_ok_inv _ _ _ _ _ h with ⟨hn, _⟩ | ⟨a, c, ha, hl, hs, rfl, hhe, hly, hfmt⟩
  · rcases hext with rfl | rfl | rfl <;> simp [extFmt] at hn
  · simp only [readLyricsTag, alGet_alSet_self]
    exact hly

/-! ### Concrete scenarios used as counterexamples and witnesses -/

/-- Directory `d` with a bare `a.flac` and a readable sidecar `a.lrc`. -/
def fsFlacOk : FS :=
  { audios := [("d/a.flac", { container := .flac [], loadErr := none, saveErr := none })],
    texts := [("d/a.lrc", { text := "line1\nline2", readErr := none })],
    removeErr := [] }

/-- A lone `b.mp3` with no sidecar anywhere. -/
def fsNoSidecar : FS :=
  { audios := [("d/b.mp3", { container := .mp3 [], loadErr := none, saveErr := none })],
    texts := [],
    removeErr := [] }

/-- `a.flac` embeds fine, but `os.remove` on the sidecar is denied. -/
def fsRemoveDenied : FS :=
  { audios := [("d/a.flac", { container := .flac [], loadErr := none, saveErr := none })],
    texts := [("d/a.lrc", { text := "ly", readErr := none })],
    removeErr := [("d/a.lrc", "Permission denied")] }

/-- `a.mp3` whose container fails to load, with a readable sidecar. -/
def fsLoadBoom : FS :=
  { audios := [("d/a.mp3", { container := .mp3 [], loadErr := some "boom", saveErr := none })],
    texts := [("d/a.lrc", { text := "t", readErr := none })],
    removeErr := [] }

/-! ### Claim C1 -/

/-- Claim C1: for every audio file of one of the three container formats whose
embed succeeds (the embedded counter is incremented), re-reading the written
lyrics tag of the container now stored at the file's path returns exactly the
text content of the sidecar `.lrc` file that was read. -/
theorem c1_embedded_roundtrip (sk rd : Bool) (fs : FS) (p : String) (sd : SidecarData)
    (hext : extOf p = ".flac" ∨ extOf p = ".mp3" ∨ extOf p = ".m4a")
    (hsd : alGet fs.texts (lrcPathOf p) = some sd)
    (hemb : (processFile sk rd fs p).embeddedInc = 1) :
    readLyricsTag (processFile sk rd fs p).fs p = some sd.text := by
  have hv := processFile_view sk rd fs p
  generalize hres : processFile sk rd fs p = res at hv hemb ⊢
  cases hv with
  | noSidecar h0 => simp [hsd] at h0
  | readFail sd' m h0 h1 => simp at hemb
  | skipLoadFail sd' m h0 h1 h2 h3 => simp at hemb
  | skipCheckFail sd' audio m h0 h1 h2 h3 h4 => simp at hemb
  | skipped sd' audio h0 h1 h2 h3 h4 => simp at hemb
  | embedFail sd' m h0 h1 h2 h3 => simp at hemb
  | embedded sd' fs1 h0 h1 h2 h3 h4 =>
    rw [hsd] at h0
    injection h0 with h0
    subst h0
    exact readLyricsTag_embedStep fs fs1 p (extOf p) sd.text hext h3
  | embeddedReduced sd' fs1 fs2 h0 h1 h2 h3 h4 h5 =>
    rw [hsd] at h0
    injection h0 with h0
    subst h0
    have hfr := removeFile_ok_inv fs1 fs2 (lrcPathOf p) h5
    rw [readLyricsTag_congr fs1 fs2 p hfr.1]
    exact readLyricsTag_embedStep fs fs1 p (extOf p) sd.text hext h3
  | removeFail sd' fs1 m h0 h1 h2 h3 h4 h5 =>
    rw [hsd] at h0
    injection h0 with h0
    subst h0
    rw [readLyricsTag_congr fs1 (renameToFailed fs1 (lrcPathOf p)) p
      (renameToFailed_audios fs1 (lrcPathOf p))]
    exact readLyricsTag_embedStep fs fs1 p (extOf p) sd.text hext h3

/-- Witness for claim C1 at a concrete FLAC file. -/
theorem c1_witness :
    readLyricsTag (processFile false false fsFlacOk "d/a.flac").fs "d/a.flac" =
      some ("line1\nline2" : String) :=
  c1_embedded_roundtrip false false fsFlacOk "d/a.flac" { text := "line1\nline2", readErr := none }
    (Or.inl (by decide)) (by decide) (by decide)

/-! ### Claim C9 -/

/-- Claim C9: for every audio file with no sidecar at the derived `.lrc` path,
processing leaves the whole file system untouched (in particular the audio
file itself, which is never opened for writing) and counts the file neither
as embedded nor as failed. -/
theorem c9_no_sidecar_untouched (sk rd : Bool) (fs : FS) (p : String)
    (h : alGet fs.texts (lrcPathOf p) = none) :
    processFile sk rd fs p = ⟨0, none, fs⟩ := by
  have hv := processFile_view sk rd fs p
  generalize hres : processFile sk rd fs p = res at hv ⊢
  cases hv with
  | noSidecar h0 => rfl
  | readFail sd m h0 h1 => simp [h] at h0
  | skipLoadFail sd m h0 h1 h2 h3 => simp [h] at h0
  | skipCheckFail sd audio m h0 h1 h2 h3 h4 => simp [h] at h0
  | skipped sd audio h0 h1 h2 h3 h4 => simp [h] at h0
  | embedFail sd m h0 h1 h2 h3 => simp [h] at h0
  | embedded sd fs1 h0 h1 h2 h3 h4 => simp [h] at h0
  | embeddedReduced sd fs1 fs2 h0 h1 h2 h3 h4 h5 => simp [h] at h0
  | removeFail sd fs1 m h0 h1 h2 h3 h4 h5 => simp [h] at h0

/-- Witness for claim C9 at a concrete MP3 file without sidecar. -/
theorem c9_witness :
    processFile false false fsNoSidecar "d/b.mp3" = ⟨0, none, fsNoSidecar⟩ :=
  c9_no_sidecar_untouched false false fsNoSidecar "d/b.mp3" (by decide)

/-! ### Claim C7 -/

/-- Claim C7: whenever processing a file fails (any error while reading the
sidecar, loading the container, writing the tag, or deleting the sidecar), the
sidecar — still present at exception time — ends up renamed to
`<name>.lrc.failed` and the original `.lrc` path no longer exists. -/
theorem c7_failure_renames_sidecar (sk rd : Bool) (fs : FS) (p n : String) (sd : SidecarData)
    (hsd : alGet fs.texts (lrcPathOf p) = some sd)
    (hf : (processFile sk rd fs p).failedName = some n) :
    alGet (processFile sk rd fs p).fs.texts (lrcPathOf p) = none ∧
    alGet (processFile sk rd fs p).fs.texts (lrcPathOf p ++ ".failed") = some sd := by
  have hv := processFile_view sk rd fs p
  generalize hres : processFile sk rd fs p = res at hv hf ⊢
  cases hv with
  | noSidecar h0 => simp [hsd] at h0
  | skipped sd' audio h0 h1 h2 h3 h4 => simp at hf
  | embedded sd' fs1 h0 h1 h2 h3 h4 => simp at hf
  | embeddedReduced sd' fs1 fs2 h0 h1 h2 h3 h4 h5 => simp at hf
  | readFail sd' m h0 h1 =>
    rw [hsd] at h0
    injection h0 with h0
    subst h0
    exact ⟨renameToFailed_get_self fs (lrcPathOf p),
      renameToFailed_get_failed fs (lrcPathOf p) sd hsd⟩
  | skipLoadFail sd' m h0 h1 h2 h3 =>
    rw [hsd] at h0
    injection h0 with h0
    subst h0
    exact ⟨renameToFailed_get_self fs (lrcPathOf p),
      renameToFailed_get_failed fs (lrcPathOf p) sd hsd⟩
  | skipCheckFail sd' audio m h0 h1 h2 h3 h4 =>
    rw [hsd] at h0
    injection h0 with h0
    subst h0
    exact ⟨renameToFailed_get_self fs (lrcPathOf p),
      renameToFailed_get_failed fs (lrcPathOf p) sd hsd⟩
  | embedFail sd' m h0 h1 h2 h3 =>
    rw [hsd] at h0
    injection h0 with h0
    subst h0
    exact ⟨renameToFailed_get_self fs (lrcPathOf p),
      renameToFailed_get_failed fs (lrcPathOf p) sd hsd⟩
  | removeFail sd' fs1 m h0 h1 h2 h3 h4 h5 =>
    rw [hsd] at h0
    injection h0 with h0
    subst h0
    have hfr := embedStep_ok_frame _ _ _ _ _ h3
    refine ⟨renameToFailed_get_self fs1 (lrcPathOf p), ?_⟩
    refine renameToFailed_get_failed fs1 (lrcPathOf p) sd ?_
    rw [hfr.1]
    exact hsd

/-- Witness for claim C7 at a concrete load failure. -/
theorem c7_witness :
    alGet (processFile false false fsLoadBoom "d/a.mp3").fs.texts (lrcPathOf "d/a.mp3") = none ∧
    alGet (processFile false false fsLoadBoom "d/a.mp3").fs.texts
      (lrcPathOf "d/a.mp3" ++ ".failed") = some { text := "t", readErr := none } :=
  c7_failure_renames_sidecar false false fsLoadBoom "d/a.mp3" "a.mp3"
    { text := "t", readErr := none } (by decide) (by decide)

/-! ### Claim C4 -/

/-- Counterexample to claim C4 as stated: when the tag write succeeds but the
subsequent sidecar deletion fails, the file IS appended to the failed list and
its sidecar IS renamed to `.failed` (while the embedded counter, already
incremented before `os.remove`, still counts the file). -/
theorem c4_counterexample :
    (processFile false true fsRemoveDenied "d/a.flac").embeddedInc = 1 ∧
    (processFile false true fsRemoveDenied "d/a.flac").failedName = some "a.flac" ∧
    alGet (processFile false true fsRemoveDenied "d/a.flac").fs.texts "d/a.lrc" = none ∧
    alGet (processFile false true fsRemoveDenied "d/a.flac").fs.texts "d/a.lrc.failed" =
      some { text := "ly", readErr := none } := by
  decide

/-- Claim C4 (amended): if the tag write succeeds (embedded counter is
incremented) but `os.remove` of the sidecar fails, the file keeps counting as
embedded, yet it is also reported in the failed list under its basename and
the still-present sidecar is renamed to `<name>.lrc.failed`. -/
theorem c4_amended_remove_failure (sk : Bool) (fs : FS) (p m : String) (sd : SidecarData)
    (hsd : alGet fs.texts (lrcPathOf p) = some sd)
    (hrm : alGet fs.removeErr (lrcPathOf p) = some m)
    (hinc : (processFile sk true fs p).embeddedInc = 1) :
    (processFile sk true fs p).failedName = some (basename p) ∧
    alGet (processFile sk true fs p).fs.texts (lrcPathOf p) = none ∧
    alGet (processFile sk true fs p).fs.texts (lrcPathOf p ++ ".failed") = some sd := by
  have hv := processFile_view sk true fs p
  generalize hres : processFile sk true fs p = res at hv hinc ⊢
  cases hv with
  | noSidecar h0 => simp at hinc
  | readFail sd' m' h0 h1 => simp at hinc
  | skipLoadFail sd' m' h0 h1 h2 h3 => simp at hinc
  | skipCheckFail sd' audio m' h0 h1 h2 h3 h4 => simp at hinc
  | skipped sd' audio h0 h1 h2 h3 h4 => simp at hinc
  | embedFail sd' m' h0 h1 h2 h3 => simp at hinc
  | embedded sd' fs1 h0 h1 h2 h3 h4 => simp at h4
  | embeddedReduced sd' fs1 fs2 h0 h1 h2 h3 h4 h5 =>
    exfalso
    have hfr := embedStep_ok_frame _ _ _ _ _ h3
    unfold removeFile at h5
    rw [hfr.2, hrm] at h5
    simp at h5
  | removeFail sd' fs1 m' h0 h1 h2 h3 h4 h5 =>
    rw [hsd] at h0
    injection h0 with h0
    subst h0
    have hfr := embedStep_ok_frame _ _ _ _ _ h3
    refine ⟨rfl, renameToFailed_get_self fs1 (lrcPathOf p), ?_⟩
    refine renameToFailed_get_failed fs1 (lrcPathOf p) sd ?_
    rw [hfr.1]
    exact hsd

/-- Witness for the amended claim C4 at the concrete denied-removal scenario. -/
theorem c4_witness :
    (processFile false true fsRemoveDenied "d/a.flac").failedName =
      some (basename "d/a.flac") ∧
    alGet (processFile false true fsRemoveDenied "d/a.flac").fs.texts
      (lrcPathOf "d/a.flac") = none ∧
    alGet (processFile false true fsRemoveDenied "d/a.flac").fs.texts
      (lrcPathOf "d/a.flac" ++ ".failed") = some { text := "ly", readErr := none } :=
  c4_amended_remove_failure false fsRemoveDenied "d/a.flac" "Permission denied"
    { text := "ly", readErr := none } (by decide) (by decide) (by decide)

/-! ### Claim C6 -/

/-- `a.mp3` already holding a `USLT` frame stored, as mutagen does after a
load, under its hash key `USLT::eng` (language `eng`, empty description),
plus a readable sidecar with new lyrics. -/
def fsUsltEng : FS :=
  { audios := [("d/a.mp3",
      { container := .mp3 [("USLT::eng",
          { frameID := "USLT", encoding := 0, lang := "eng", desc := "", text := "old" })],
        loadErr := none, saveErr := none })],
    texts := [("d/a.lrc", { text := "new", readErr := none })],
    removeErr := [] }

/-- Claim C6 is violated by the code: writing lyrics assigns the fresh `USLT`
frame under the dictionary key `USLT` without clearing lyrics frames stored
under other keys (`USLT::eng` here), so after one write over a file carrying a
prior frame with a different language subfield the saved container holds TWO
`USLT` frames instead of a single replaced one. -/
theorem c6_uslt_frames_accumulate :
    usltFrameCount fsUsltEng "d/a.mp3" = 1 ∧
    (processFile false false fsUsltEng "d/a.mp3").embeddedInc = 1 ∧
    usltFrameCount (processFile false false fsUsltEng "d/a.mp3").fs "d/a.mp3" = 2 := by
  decide

/-! ### Claim C10 -/

/-- An empty file system. -/
def fsEmpty : FS := { audios := [], texts := [], removeErr := [] }

/-- Claim C10: the result of `embed_lrc` is independent of the value of its
`recursive` argument (the parameter is never read), and subdirectories are
traversed even when the flag is off: a file that only exists in a
subdirectory is still counted. -/
theorem c10_recursive_flag_ignored :
    (∀ (d : String) (sk rd rc rc' : Bool) (t : DirTree) (fs : FS),
        embedLrc d sk rd rc t fs = embedLrc d sk rd rc' t fs) ∧
    (embedLrc "top" false false false
        (DirTree.node [] [("sub", DirTree.node ["deep.flac"] [])]) fsEmpty).total = 1 := by
  constructor
  · intro d sk rd rc rc' t fs
    rfl
  · decide

/-! ### Claim C8 -/

/-- Claim C8: for every batch run, the reported percentage equals
embedded / total × 100 (rational arithmetic), and it equals 0 when the total
file count is 0. -/
theorem c8_percentage_formula (d : String) (sk rd rc : Bool) (t : DirTree) (fs : FS) :
    reportPercentage (embedLrc d sk rd rc t fs).total (embedLrc d sk rd rc t fs).embedded =
      ((embedLrc d sk rd rc t fs).embedded : Rat) /
        ((embedLrc d sk rd rc t fs).total : Rat) * 100 ∧
    ((embedLrc d sk rd rc t fs).total = 0 →
      reportPercentage (embedLrc d sk rd rc t fs).total
        (embedLrc d sk rd rc t fs).embedded = 0) := by
  generalize (embedLrc d sk rd rc t fs).total = tot
  generalize (embedLrc d sk rd rc t fs).embedded = emb
  constructor
  · unfold reportPercentage
    split
    · rfl
    · next hpos =>
      have h0 : tot = 0 := by omega
      subst h0
      simp
  · intro h0
    subst h0
    unfold reportPercentage
    simp

/-- Witness for claim C8 on an empty directory (total = 0). -/
theorem c8_witness :
    reportPercentage (embedLrc "d" false false false (DirTree.node [] []) fsEmpty).total
      (embedLrc "d" false false false (DirTree.node [] []) fsEmpty).embedded = 0 :=
  (c8_percentage_formula "d" false false false (DirTree.node [] []) fsEmpty).2 (by decide)

/-! ### Claim C5 -/

theorem selectAudio_ends (f : String) (h : selectAudio f = true) :
    strEndsWith f ".flac" = true ∨ strEndsWith f ".mp3" = true ∨
      strEndsWith f ".m4a" = true := by
  unfold selectAudio at h
  simp only [Bool.or_eq_true] at h
  tauto

mutual

theorem mem_walkCollect_ends :
    ∀ (root p : String) (t : DirTree), p ∈ walkCollect root t →
      strEndsWith p ".flac" = true ∨ strEndsWith p ".mp3" = true ∨
        strEndsWith p ".m4a" = true
  | root, p, .node files subdirs, h => by
    rw [walkCollect] at h
    rcases List.mem_append.mp h with h1 | h2
    · obtain ⟨f, hf, hsel⟩ := List.mem_filterMap.mp h1
      by_cases hs : selectAudio f = true
      · rw [if_pos hs] at hsel
        injection hsel with hsel
        subst hsel
        rcases selectAudio_ends f hs with h | h | h
        · exact .inl (strEndsWith_pathJoin root f _ h)
        · exact .inr (.inl (strEndsWith_pathJoin root f _ h))
        · exact .inr (.inr (strEndsWith_pathJoin root f _ h))
      · rw [if_neg hs] at hsel
        exact absurd hsel (by simp)
    · exact mem_walkCollectDirs_ends root p subdirs h2

theorem mem_walkCollectDirs_ends :
    ∀ (root p : String) (l : List (String × DirTree)), p ∈ walkCollectDirs root l →
      strEndsWith p ".flac" = true ∨ strEndsWith p ".mp3" = true ∨
        strEndsWith p ".m4a" = true
  | root, p, [], h => by
    rw [walkCollectDirs] at h
    exact absurd h (by simp)
  | root, p, (name, t) :: rest, h => by
    rw [walkCollectDirs] at h
    rcases List.mem_append.mp h with h1 | h2
    · exact mem_walkCollect_ends (pathJoin root name) p t h1
    · exact mem_walkCollectDirs_ends root p rest h2

end

/-- Counterexample to claim C5 as stated: `SONG.FLAC` has extension `.flac`
when compared case-insensitively, yet `file.endswith(('.flac', '.mp3',
'.m4a'))` is case-sensitive and the file is not selected. -/
theorem c5_counterexample :
    strEndsWith (strLower "SONG.FLAC") ".flac" = true ∧
    selectAudio "SONG.FLAC" = false ∧
    walkCollect "d" (DirTree.node ["SONG.FLAC"] []) = [] := by
  decide

/-- Claim C5 (amended): a file is selected for processing exactly when its
name ends with `.flac`, `.mp3` or `.m4a` compared CASE-SENSITIVELY (so every
collected path carries one of the three lowercase suffixes), and the container
format is then determined once, from the lowercased `splitext` extension of
the file's basename (that part is case-insensitive). -/
theorem c5_amended_selection :
    (∀ root f : String, walkCollect root (DirTree.node [f] []) =
        if selectAudio f = true then [pathJoin root f] else []) ∧
    (∀ (root : String) (t : DirTree) (p : String), p ∈ walkCollect root t →
        strEndsWith p ".flac" = true ∨ strEndsWith p ".mp3" = true ∨
          strEndsWith p ".m4a" = true) ∧
    (∀ p : String, extOf p = strLower (splitextExt (basename p))) := by
  refine ⟨?_, ?_, fun p => rfl⟩
  · intro root f
    by_cases h : selectAudio f = true
    · simp [walkCollect, walkCollectDirs, h]
    · simp [walkCollect, walkCollectDirs, h]
  · intro root t p h
    exact mem_walkCollect_ends root p t h

/-- Witness for the amended claim C5: a selected path in a nested directory
indeed ends in one of the three (case-sensitive) suffixes. -/
theorem c5_witness :
    strEndsWith "top/sub/deep.flac" ".flac" = true ∨
    strEndsWith "top/sub/deep.flac" ".mp3" = true ∨
    strEndsWith "top/sub/deep.flac" ".m4a" = true :=
  c5_amended_selection.2.1 "top"
    (DirTree.node [] [("sub", DirTree.node ["deep.flac"] [])]) "top/sub/deep.flac"
    (by decide)

/-! ### Claim C3 -/

theorem runBatch_append (sk rd : Bool) (xs ys : List String) (fs : FS) :
    runBatch sk rd (xs ++ ys) fs =
      { embedded := (runBatch sk rd xs fs).embedded +
          (runBatch sk rd ys (runBatch sk rd xs fs).fs).embedded,
        failed := (runBatch sk rd xs fs).failed ++
          (runBatch sk rd ys (runBatch sk rd xs fs).fs).failed,
        fs := (runBatch sk rd ys (runBatch sk rd xs fs).fs).fs } := by
  induction xs generalizing fs with
  | nil => simp [runBatch]
  | cons x xs ih =>
    simp only [List.cons_append, runBatch, List.append_eq]
    rw [ih]
    simp [Nat.add_assoc, List.append_assoc]

theorem processFile_failedName (sk rd : Bool) (fs : FS) (p : String) :
    (processFile sk rd fs p).failedName = none ∨
    (processFile sk rd fs p).failedName = some (basename p) := by
  have hv := processFile_view sk rd fs p
  generalize processFile sk rd fs p = res at hv
  cases hv <;> simp

theorem runBatch_failed_names (sk rd : Bool) (l : List String) (fs : FS) (n : String)
    (h : n ∈ (runBatch sk rd l fs).failed) : ∃ p ∈ l, n = basename p := by
  induction l generalizing fs with
  | nil => simp [runBatch] at h
  | cons x xs ih =>
    simp only [runBatch] at h
    rcases List.mem_append.mp h with h1 | h2
    · rcases processFile_failedName sk rd fs x with hfn | hfn <;> rw [hfn] at h1
      · simp [Option.toList] at h1
      · simp [Option.toList] at h1
        exact ⟨x, List.mem_cons_self x xs, h1⟩
    · obtain ⟨p, hp, hn⟩ := ih _ h2
      exact ⟨p, List.mem_cons_of_mem x hp, hn⟩

/-- `a.mp3` whose container load raises with message `boom1`. -/
def fsMsg1 : FS :=
  { audios := [("d/a.mp3", { container := .mp3 [], loadErr := some "boom1", saveErr := none })],
    texts := [("d/a.lrc", { text := "t", readErr := none })],
    removeErr := [] }

/-- The same file system except the exception message is `boom2`. -/
def fsMsg2 : FS :=
  { audios := [("d/a.mp3", { container := .mp3 [], loadErr := some "boom2", saveErr := none })],
    texts := [("d/a.lrc", { text := "t", readErr := none })],
    removeErr := [] }

/-- A directory holding just `a.mp3`. -/
def treeOneMp3 : DirTree := DirTree.node ["a.mp3"] []

/-- Counterexample to claim C3 as stated: the returned batch result does not
carry the error messages.  Two runs whose only difference is the per-file
exception message (`boom1` vs `boom2`) produce identical returned results
(total, embedded count and failed list, which holds bare basenames), so the
result cannot contain the messages. -/
theorem c3_counterexample :
    fsMsg1 ≠ fsMsg2 ∧
    (embedLrc "d" false false false treeOneMp3 fsMsg1).failed = ["a.mp3"] ∧
    ((embedLrc "d" false false false treeOneMp3 fsMsg1).total,
      (embedLrc "d" false false false treeOneMp3 fsMsg1).embedded,
      (embedLrc "d" false false false treeOneMp3 fsMsg1).failed) =
    ((embedLrc "d" false false false treeOneMp3 fsMsg2).total,
      (embedLrc "d" false false false treeOneMp3 fsMsg2).embedded,
      (embedLrc "d" false false false treeOneMp3 fsMsg2).failed) := by
  decide

/-- Claim C3 (amended): the batch runner processes the collected files in the
given order and a failure on one file does not abort or alter the processing
of the rest: the run over `xs ++ ys` is the run over `xs` followed by the run
over `ys` from the intermediate state, with counts added and failed lists
concatenated in order; the returned total is the number of collected files;
and every failed entry is the basename of a processed file (the error
messages are printed when the exception occurs but are not part of the
returned result). -/
theorem c3_amended_batch :
    (∀ (sk rd : Bool) (xs ys : List String) (fs : FS),
        runBatch sk rd (xs ++ ys) fs =
          { embedded := (runBatch sk rd xs fs).embedded +
              (runBatch sk rd ys (runBatch sk rd xs fs).fs).embedded,
            failed := (runBatch sk rd xs fs).failed ++
              (runBatch sk rd ys (runBatch sk rd xs fs).fs).failed,
            fs := (runBatch sk rd ys (runBatch sk rd xs fs).fs).fs }) ∧
    (∀ (d : String) (sk rd rc : Bool) (t : DirTree) (fs : FS),
        (embedLrc d sk rd rc t fs).total = (walkCollect d t).length) ∧
    (∀ (sk rd : Bool) (l : List String) (fs : FS) (n : String),
        n ∈ (runBatch sk rd l fs).failed → ∃ p ∈ l, n = basename p) := by
  refine ⟨runBatch_append, fun d sk rd rc t fs => rfl, runBatch_failed_names⟩

/-- Witness for the amended claim C3: on a concrete failing run the failed
entry is the basename of the processed path. -/
theorem c3_witness :
    ∃ p ∈ ["d/a.mp3"], "a.mp3" = basename p :=
  c3_amended_batch.2.2 false false ["d/a.mp3"] fsMsg1 "a.mp3" (by decide)

/-! ### Claim C2: inertness machinery -/

/-- Whether an `Except` computation succeeded. -/
def exceptOk {ε α : Type} : Except ε α → Bool
  | .ok _ => true
  | .error _ => false

theorem loadContainer_congr (fs fs' : FS) (p : String) (fmt : Fmt)
    (h : alGet fs'.audios p = alGet fs.audios p) :
    loadContainer fs' p fmt = loadContainer fs p fmt := by
  unfold loadContainer
  rw [h]

theorem skipLoad_congr (fs fs' : FS) (p ext : String)
    (h : alGet fs'.audios p = alGet fs.audios p) :
    skipLoad fs' p ext = skipLoad fs p ext := by
  unfold skipLoad
  cases extFmt ext with
  | none => rfl
  | some fmt =>
    show Except.map some (loadContainer fs' p fmt) = Except.map some (loadContainer fs p fmt)
    rw [loadContainer_congr fs fs' p fmt h]

theorem saveAudio_ok_of (fs : FS) (p : String) (c : Container) (a : AudioData)
    (ha : alGet fs.audios p = some a) (hs : a.saveErr = none) :
    saveAudio fs p c =
      .ok { fs with audios := alSet fs.audios p { a with container := c } } := by
  unfold saveAudio
  simp [ha, hs]

theorem saveAudio_exceptOk_congr (fs fs' : FS) (p : String) (c : Container)
    (h : alGet fs'.audios p = alGet fs.audios p) :
    exceptOk (saveAudio fs' p c) = exceptOk (saveAudio fs p c) := by
  cases hsv : saveAudio fs p c with
  | ok fs1 =>
    obtain ⟨a, ha, hs, _⟩ := saveAudio_ok_inv _ _ _ _ hsv
    rw [saveAudio_ok_of fs' p c a (by rw [h, ha]) hs]
    rfl
  | error m =>
    cases hsv' : saveAudio fs' p c with
    | error m' => rfl
    | ok fs1' =>
      obtain ⟨a, ha', hs, _⟩ := saveAudio_ok_inv _ _ _ _ hsv'
      rw [h] at ha'
      rw [saveAudio_ok_of fs p c a ha' hs] at hsv
      exact absurd hsv (by simp)

theorem embedStep_exceptOk_congr (fs fs' : FS) (p ext ly : String)
    (h : alGet fs'.audios p = alGet fs.audios p) :
    exceptOk (embedStep fs' p ext ly) = exceptOk (embedStep fs p ext ly) := by
  unfold embedStep
  by_cases h1 : ext = ".flac"
  · rw [if_pos h1, if_pos h1, loadContainer_congr fs fs' p .flac h]
    cases hlc : loadContainer fs p .flac with
    | error m => rfl
    | ok c =>
      cases c with
      | flac tags => exact saveAudio_exceptOk_congr fs fs' p _ h
      | mp3 fr => rfl
      | m4a t => rfl
  · rw [if_neg h1, if_neg h1]
    by_cases h2 : ext = ".mp3"
    · rw [if_pos h2, if_pos h2, loadContainer_congr fs fs' p .mp3 h]
      cases hlc : loadContainer fs p .mp3 with
      | error m => rfl
      | ok c =>
        cases c with
        | flac tags => rfl
        | mp3 fr => exact saveAudio_exceptOk_congr fs fs' p _ h
        | m4a t => rfl
    · rw [if_neg h2, if_neg h2]
      by_cases h3 : ext = ".m4a"
      · rw [if_pos h3, if_pos h3, loadContainer_congr fs fs' p .m4a h]
        cases hlc : loadContainer fs p .m4a with
        | error m => rfl
        | ok c =>
          cases c with
          | flac tags => rfl
          | mp3 fr => rfl
          | m4a t => exact saveAudio_exceptOk_congr fs fs' p _ h
      · rw [if_neg h3, if_neg h3]
        rfl

theorem hasEmb_ok_true_ext (audio : Option Container) (ext : String)
    (h : hasEmbeddedLyrics audio ext = .ok true) :
    ext = ".flac" ∨ ext = ".m4a" := by
  by_contra hc
  push_neg at hc
  obtain ⟨h1, h3⟩ := hc
  unfold hasEmbeddedLyrics at h
  rw [if_neg h1, if_neg h3] at h
  by_cases h2 : ext = ".mp3"
  · rw [if_pos h2] at h
    exact absurd h (by simp)
  · rw [if_neg h2] at h
    exact absurd h (by simp)

theorem hasEmb_error_ext (audio : Option Container) (ext m : String)
    (h : hasEmbeddedLyrics audio ext = .error m) : ext = ".mp3" := by
  unfold hasEmbeddedLyrics at h
  by_cases h1 : ext = ".flac"
  · rw [if_pos h1] at h
    cases audio with
    | none => exact absurd h (by simp)
    | some c => cases c <;> exact absurd h (by simp)
  · rw [if_neg h1] at h
    by_cases h3 : ext = ".m4a"
    · rw [if_pos h3] at h
      cases audio with
      | none => exact absurd h (by simp)
      | some c => cases c <;> exact absurd h (by simp)
    · rw [if_neg h3] at h
      by_cases h2 : ext = ".mp3"
      · exact h2
      · rw [if_neg h2] at h
        exact absurd h (by simp)

/-- An inert file contributes nothing to the embedded counter of a
skip-enabled run. -/
theorem inertF_imp_inc_zero (rd : Bool) (fs : FS) (p : String)
    (h : inertF fs p = true) :
    (processFile true rd fs p).embeddedInc = 0 := by
  have hv := processFile_view true rd fs p
  generalize hres : processFile true rd fs p = res at hv ⊢
  cases hv with
  | noSidecar h0 => rfl
  | readFail sd m h0 h1 => rfl
  | skipLoadFail sd m h0 h1 h2 h3 => rfl
  | skipCheckFail sd audio m h0 h1 h2 h3 h4 => rfl
  | skipped sd audio h0 h1 h2 h3 h4 => rfl
  | embedFail sd m h0 h1 h2 h3 => rfl
  | embedded sd fs1 h0 h1 h2 h3 h4 =>
    rcases h2 with h2 | ⟨audio, hsl, hhe⟩
    · exact absurd h2 (by simp)
    · simp only [inertF, h0, h1, hsl, hhe, h3] at h
      simp at h
  | embeddedReduced sd fs1 fs2 h0 h1 h2 h3 h4 h5 =>
    rcases h2 with h2 | ⟨audio, hsl, hhe⟩
    · exact absurd h2 (by simp)
    · simp only [inertF, h0, h1, hsl, hhe, h3] at h
      simp at h
  | removeFail sd fs1 m h0 h1 h2 h3 h4 h5 =>
    rcases h2 with h2 | ⟨audio, hsl, hhe⟩
    · exact absurd h2 (by simp)
    · simp only [inertF, h0, h1, hsl, hhe, h3] at h
      simp at h

/-- Processing a file with one of the three recognized extensions leaves that
file inert: a second skip-enabled pass cannot embed it again. -/
theorem processFile_inert_self (rd : Bool) (fs : FS) (p : String)
    (hext : extOf p = ".flac" ∨ extOf p = ".mp3" ∨ extOf p = ".m4a") :
    inertF (processFile true rd fs p).fs p = true := by
  have hv := processFile_view true rd fs p
  generalize hres : processFile true rd fs p = res at hv ⊢
  cases hv with
  | noSidecar h0 => simp only [inertF, h0]
  | readFail sd m h0 h1 => simp only [inertF, renameToFailed_get_self]
  | skipLoadFail sd m h0 h1 h2 h3 => simp only [inertF, renameToFailed_get_self]
  | skipCheckFail sd audio m h0 h1 h2 h3 h4 => simp only [inertF, renameToFailed_get_self]
  | embedFail sd m h0 h1 h2 h3 => simp only [inertF, renameToFailed_get_self]
  | skipped sd audio h0 h1 h2 h3 h4 => simp only [inertF, h0, h1, h3, h4]
  | embedded sd fs1 h0 h1 h2 h3 h4 =>
    rcases embedStep_ok_inv _ _ _ _ _ h3 with ⟨hn, rfl⟩ | ⟨a, c, ha, hl, hsv, rfl, hhec, hly, hfmt⟩
    · rcases hext with he | he | he <;> rw [he] at hn <;> simp [extFmt] at hn
    · have hef : ∃ fmt, extFmt (extOf p) = some fmt := by
        rcases hext with he | he | he <;> rw [he]
        · exact ⟨.flac, by decide⟩
        · exact ⟨.mp3, by decide⟩
        · exact ⟨.m4a, by decide⟩
      obtain ⟨fmt, hef⟩ := hef
      have hcf : containerFmt c = fmt := hfmt fmt hef
      have hload : loadContainer
          { fs with audios := alSet fs.audios p { a with container := c } } p fmt = .ok c := by
        have hh := loadContainer_ok_of
          { fs with audios := alSet fs.audios p { a with container := c } } p fmt
          { a with container := c } (by simp [alGet_alSet_self]) hl hcf
        simpa using hh
      have hsl : skipLoad
          { fs with audios := alSet fs.audios p { a with container := c } } p (extOf p) =
          .ok (some c) := by
        unfold skipLoad
        rw [hef]
        show Except.map some (loadContainer
          { fs with audios := alSet fs.audios p { a with container := c } } p fmt) = _
        rw [hload]
        rfl
      rcases hhec with hhec | hhec <;> simp only [inertF, h0, h1, hsl, hhec]
  | embeddedReduced sd fs1 fs2 h0 h1 h2 h3 h4 h5 =>
    have hfr := removeFile_ok_inv fs1 fs2 (lrcPathOf p) h5
    simp only [inertF, hfr.2.2, alGet_alRemove_self]
  | removeFail sd fs1 m h0 h1 h2 h3 h4 h5 =>
    simp only [inertF, renameToFailed_get_self]

/-- Inertness of `p` only depends on the sidecar entry at `p`'s `.lrc` path
and the audio entry at `p`; it survives any change that leaves those alone,
removes the sidecar, or replaces `p`'s container by one that already carries
lyrics for `p`'s extension. -/
theorem inertF_preserved (fs fs' : FS) (p : String)
    (htxt : alGet fs'.texts (lrcPathOf p) = alGet fs.texts (lrcPathOf p) ∨
            alGet fs'.texts (lrcPathOf p) = none)
    (haud : alGet fs'.audios p = alGet fs.audios p ∨
            (∃ a c, alGet fs.audios p = some a ∧ a.loadErr = none ∧
              alGet fs'.audios p = some { a with container := c } ∧
              (hasEmbeddedLyrics (some c) (extOf p) = .ok true ∨
                hasEmbeddedLyrics (some c) (extOf p) = .error id3TagsAttributeError) ∧
              (∀ fmt, extFmt (extOf p) = some fmt → containerFmt c = fmt)))
    (hin : inertF fs p = true) : inertF fs' p = true := by
  rcases htxt with ht | ht
  · cases hsd : alGet fs.texts (lrcPathOf p) with
    | none => simp only [inertF, ht, hsd]
    | some sd =>
      cases hre : sd.readErr with
      | some m => simp only [inertF, ht, hsd, hre]
      | none =>
        rcases haud with ha | ⟨a, c, ha, hl, ha', hhe, hfmt⟩
        · have hslc := skipLoad_congr fs fs' p (extOf p) ha
          cases hsl : skipLoad fs p (extOf p) with
          | error m => simp only [inertF, ht, hsd, hre, hslc, hsl]
          | ok audio =>
            cases hhe : hasEmbeddedLyrics audio (extOf p) with
            | error m => simp only [inertF, ht, hsd, hre, hslc, hsl, hhe]
            | ok b =>
              cases b with
              | true => simp only [inertF, ht, hsd, hre, hslc, hsl, hhe]
              | false =>
                simp only [inertF, hsd, hre, hsl, hhe] at hin
                cases hes : embedStep fs p (extOf p) sd.text with
                | ok fsx => rw [hes] at hin; simp at hin
                | error m =>
                  have hok : exceptOk (embedStep fs' p (extOf p) sd.text) =
                      exceptOk (embedStep fs p (extOf p) sd.text) :=
                    embedStep_exceptOk_congr fs fs' p (extOf p) sd.text ha
                  rw [hes] at hok
                  cases hes' : embedStep fs' p (extOf p) sd.text with
                  | ok fsx => rw [hes'] at hok; simp [exceptOk] at hok
                  | error m' =>
                    simp only [inertF, ht, hsd, hre, hslc, hsl, hhe, hes']
        · have hef : ∃ fmt, extFmt (extOf p) = some fmt := by
            rcases hhe with hhe | hhe
            · rcases hasEmb_ok_true_ext (some c) (extOf p) hhe with he | he <;> rw [he]
              · exact ⟨.flac, by decide⟩
              · exact ⟨.m4a, by decide⟩
            · rw [hasEmb_error_ext (some c) (extOf p) id3TagsAttributeError hhe]
              exact ⟨.mp3, by decide⟩
          obtain ⟨fmt, hef⟩ := hef
          have hload : loadContainer fs' p fmt = .ok c := by
            have hh := loadContainer_ok_of fs' p fmt { a with container := c } ha' hl
              (hfmt fmt hef)
            simpa using hh
          have hsl' : skipLoad fs' p (extOf p) = .ok (some c) := by
            unfold skipLoad
            rw [hef]
            show Except.map some (loadContainer fs' p fmt) = _
            rw [hload]
            rfl
          rcases hhe with hhe | hhe <;> simp only [inertF, ht, hsd, hre, hsl', hhe]
  · simp only [inertF, ht]

/-- Processing any file (with any options) preserves inertness of every file. -/
theorem processFile_preserves_inert (sk rd : Bool) (fs : FS) (p q : String)
    (hin : inertF fs p = true) :
    inertF (processFile sk rd fs q).fs p = true := by
  have hv := processFile_view sk rd fs q
  generalize hres : processFile sk rd fs q = res at hv ⊢
  cases hv with
  | noSidecar h0 => exact hin
  | skipped sd audio h0 h1 h2 h3 h4 => exact hin
  | readFail sd m h0 h1 =>
    refine inertF_preserved fs (renameToFailed fs (lrcPathOf q)) p ?_ (Or.inl (by
      rw [renameToFailed_audios])) hin
    by_cases hpq : lrcPathOf p = lrcPathOf q
    · right
      rw [hpq]
      exact renameToFailed_get_self fs (lrcPathOf q)
    · left
      exact renameToFailed_get_other fs (lrcPathOf q) (lrcPathOf p) hpq
        (Ne.symm (ne_of_failed_of_lrc (lrcPathOf q) (lrcPathOf p) (lrcPathOf_endsWith p)))
  | skipLoadFail sd m h0 h1 h2 h3 =>
    refine inertF_preserved fs (renameToFailed fs (lrcPathOf q)) p ?_ (Or.inl (by
      rw [renameToFailed_audios])) hin
    by_cases hpq : lrcPathOf p = lrcPathOf q
    · right
      rw [hpq]
      exact renameToFailed_get_self fs (lrcPathOf q)
    · left
      exact renameToFailed_get_other fs (lrcPathOf q) (lrcPathOf p) hpq
        (Ne.symm (ne_of_failed_of_lrc (lrcPathOf q) (lrcPathOf p) (lrcPathOf_endsWith p)))
  | skipCheckFail sd audio m h0 h1 h2 h3 h4 =>
    refine inertF_preserved fs (renameToFailed fs (lrcPathOf q)) p ?_ (Or.inl (by
      rw [renameToFailed_audios])) hin
    by_cases hpq : lrcPathOf p = lrcPathOf q
    · right
      rw [hpq]
      exact renameToFailed_get_self fs (lrcPathOf q)
    · left
      exact renameToFailed_get_other fs (lrcPathOf q) (lrcPathOf p) hpq
        (Ne.symm (ne_of_failed_of_lrc (lrcPathOf q) (lrcPathOf p) (lrcPathOf_endsWith p)))
  | embedFail sd m h0 h1 h2 h3 =>
    refine inertF_preserved fs (renameToFailed fs (lrcPathOf q)) p ?_ (Or.inl (by
      rw [renameToFailed_audios])) hin
    by_cases hpq : lrcPathOf p = lrcPathOf q
    · right
      rw [hpq]
      exact renameToFailed_get_self fs (lrcPathOf q)
    · left
      exact renameToFailed_get_other fs (lrcPathOf q) (lrcPathOf p) hpq
        (Ne.symm (ne_of_failed_of_lrc (lrcPathOf q) (lrcPathOf p) (lrcPathOf_endsWith p)))
  | embedded sd fs1 h0 h1 h2 h3 h4 =>
    rcases embedStep_ok_inv _ _ _ _ _ h3 with ⟨hn, rfl⟩ |
      ⟨a, c, ha, hl, hsv, rfl, hhec, hly, hfmt⟩
    · exact hin
    · refine inertF_preserved fs _ p (Or.inl rfl) ?_ hin
      by_cases hpq : p = q
      · subst hpq
        right
        exact ⟨a, c, ha, hl, by simp [alGet_alSet_self], hhec, hfmt⟩
      · left
        show alGet (alSet fs.audios q { a with container := c }) p = alGet fs.audios p
        exact alGet_alSet_ne _ _ _ _ hpq
  | embeddedReduced sd fs1 fs2 h0 h1 h2 h3 h4 h5 =>
    have hfr := removeFile_ok_inv fs1 fs2 (lrcPathOf q) h5
    rcases embedStep_ok_inv _ _ _ _ _ h3 with ⟨hn, rfl⟩ |
      ⟨a, c, ha, hl, hsv, rfl, hhec, hly, hfmt⟩
    · refine inertF_preserved _ fs2 p ?_ (Or.inl (by rw [hfr.1])) hin
      by_cases hpq : lrcPathOf p = lrcPathOf q
      · right
        rw [hfr.2.2, hpq]
        exact alGet_alRemove_self _ _
      · left
        rw [hfr.2.2]
        exact alGet_alRemove_ne _ _ _ hpq
    · refine inertF_preserved fs fs2 p ?_ ?_ hin
      · by_cases hpq : lrcPathOf p = lrcPathOf q
        · right
          rw [hfr.2.2, hpq]
          exact alGet_alRemove_self _ _
        · left
          rw [hfr.2.2, alGet_alRemove_ne _ _ _ hpq]
      · rw [hfr.1]
        by_cases hpq : p = q
        · subst hpq
          right
          exact ⟨a, c, ha, hl, by simp [alGet_alSet_self], hhec, hfmt⟩
        · left
          show alGet (alSet fs.audios q { a with container := c }) p = alGet fs.audios p
          exact alGet_alSet_ne _ _ _ _ hpq
  | removeFail sd fs1 m h0 h1 h2 h3 h4 h5 =>
    rcases embedStep_ok_inv _ _ _ _ _ h3 with ⟨hn, rfl⟩ |
      ⟨a, c, ha, hl, hsv, rfl, hhec, hly, hfmt⟩
    · refine inertF_preserved _ (renameToFailed _ (lrcPathOf q)) p ?_ (Or.inl (by
        rw [renameToFailed_audios])) hin
      by_cases hpq : lrcPathOf p = lrcPathOf q
      · right
        rw [hpq]
        exact renameToFailed_get_self _ (lrcPathOf q)
      · left
        exact renameToFailed_get_other _ (lrcPathOf q) (lrcPathOf p) hpq
          (Ne.symm (ne_of_failed_of_lrc (lrcPathOf q) (lrcPathOf p) (lrcPathOf_endsWith p)))
    · refine inertF_preserved fs _ p ?_ ?_ hin
      · by_cases hpq : lrcPathOf p = lrcPathOf q
        · right
          rw [hpq]
          exact renameToFailed_get_self _ (lrcPathOf q)
        · left
          rw [renameToFailed_get_other _ (lrcPathOf q) (lrcPathOf p) hpq
            (Ne.symm (ne_of_failed_of_lrc (lrcPathOf q) (lrcPathOf p) (lrcPathOf_endsWith p)))]
      · rw [renameToFailed_audios]
        by_cases hpq : p = q
        · subst hpq
          right
          exact ⟨a, c, ha, hl, by simp [alGet_alSet_self], hhec, hfmt⟩
        · left
          show alGet (alSet fs.audios q { a with container := c }) p = alGet fs.audios p
          exact alGet_alSet_ne _ _ _ _ hpq

theorem runBatch_preserves_inert (sk rd : Bool) (l : List String) (fs : FS) (p : String)
    (hin : inertF fs p = true) :
    inertF (runBatch sk rd l fs).fs p = true := by
  induction l generalizing fs with
  | nil => exact hin
  | cons x xs ih =>
    simp only [runBatch]
    exact ih _ (processFile_preserves_inert sk rd fs p x hin)

theorem runBatch_embedded_zero (rd : Bool) (l : List String) (fs : FS)
    (h : ∀ p ∈ l, inertF fs p = true) :
    (runBatch true rd l fs).embedded = 0 := by
  induction l generalizing fs with
  | nil => rfl
  | cons x xs ih =>
    simp only [runBatch]
    rw [inertF_imp_inc_zero rd fs x (h x (List.mem_cons_self x xs))]
    simp only [Nat.zero_add]
    exact ih _ (fun p hp =>
      processFile_preserves_inert true rd fs p x (h p (List.mem_cons_of_mem x hp)))

theorem runBatch_settles (rd : Bool) (l : List String) (q : String)
    (hext : extOf q = ".flac" ∨ extOf q = ".mp3" ∨ extOf q = ".m4a") :
    ∀ (fs : FS), q ∈ l → inertF (runBatch true rd l fs).fs q = true := by
  induction l with
  | nil =>
    intro fs hq
    exact absurd hq (List.not_mem_nil q)
  | cons x xs ih =>
    intro fs hq
    simp only [runBatch]
    rcases List.mem_cons.mp hq with rfl | hq'
    · exact runBatch_preserves_inert true rd xs _ q (processFile_inert_self rd fs q hext)
    · exact ih _ hq'

/-- A directory holding a single file named `.mp3` (all-dots stem, so its
`splitext` extension is empty) together with its sidecar `.mp3.lrc`. -/
def fsDotMp3 : FS :=
  { audios := [],
    texts := [("d/.mp3.lrc", { text := "x", readErr := none })],
    removeErr := [] }

/-- The walked directory for the `.mp3` pathology. -/
def treeDotMp3 : DirTree := DirTree.node [".mp3"] []

/-- Counterexample to claim C2 as stated: a file named `.mp3` is selected by
`endswith` but `splitext` gives it an empty extension, so no format branch
runs, yet `embedded_lyrics_files` is still incremented — on EVERY run, even
with `skip_if_present` on.  The second skip-enabled run over the whole batch
reports one more embed, not zero. -/
theorem c2_counterexample :
    (embedLrc "d" true false false treeDotMp3
      (embedLrc "d" true false false treeDotMp3 fsDotMp3).fs).embedded = 1 := by
  decide

/-- A FLAC file that already carries a `LYRICS` tag, plus a readable sidecar. -/
def fsTagged : FS :=
  { audios := [("d/a.flac",
      { container := .flac [("LYRICS", "x")], loadErr := none, saveErr := none })],
    texts := [("d/a.lrc", { text := "new", readErr := none })],
    removeErr := [] }

/-- The walked directory for the tagged-FLAC scenario. -/
def treeOneFlac : DirTree := DirTree.node ["a.flac"] []

/-- Claim C2 (amended): with `skip_if_present` on, the clean skip only happens
for FLAC and M4A files — when the readable sidecar exists, the container loads
and the skip check finds a lyrics tag, processing leaves the file system (in
particular the tag's value) completely unchanged and performs no write.  For
every MP3 that reaches the skip check the check itself raises
`AttributeError` (`ID3` objects have no `tags` attribute), so the file is
reported failed and its sidecar renamed to `.lrc.failed` — the audio container
is still never written.  Consequently, a second skip-enabled run of the whole
batch still performs zero additional embeds — provided every collected file
has a nonempty `splitext` extension (i.e. no basename consists of dots
followed by the suffix, such as a file literally named `.mp3`). -/
theorem c2_amended_skip_idempotent :
    (∀ (rd : Bool) (fs : FS) (p : String) (sd : SidecarData) (audio : Option Container),
        alGet fs.texts (lrcPathOf p) = some sd → sd.readErr = none →
        skipLoad fs p (extOf p) = .ok audio →
        hasEmbeddedLyrics audio (extOf p) = .ok true →
        processFile true rd fs p = ⟨0, none, fs⟩) ∧
    (∀ (rd : Bool) (fs : FS) (p : String) (sd : SidecarData) (audio : Option Container),
        alGet fs.texts (lrcPathOf p) = some sd → sd.readErr = none →
        extOf p = ".mp3" → skipLoad fs p (extOf p) = .ok audio →
        processFile true rd fs p =
          ⟨0, some (basename p), renameToFailed fs (lrcPathOf p)⟩) ∧
    (∀ (d : String) (rd rc rc' : Bool) (t : DirTree) (fs : FS),
        (∀ p ∈ walkCollect d t,
          extOf p = ".flac" ∨ extOf p = ".mp3" ∨ extOf p = ".m4a") →
        (embedLrc d true rd rc' t (embedLrc d true rd rc t fs).fs).embedded = 0) := by
  refine ⟨?_, ?_, ?_⟩
  · intro rd fs p sd audio hsd hre hsl hhe
    have hrt : runTry true rd fs p (lrcPathOf p) (extOf p) sd = .ok (0, fs) := by
      unfold runTry
      rw [hre]
      simp [hsl, hhe, Except.bind]
    simp only [processFile, hsd, hrt]
  · intro rd fs p sd audio hsd hre hext hsl
    have hhe : hasEmbeddedLyrics audio (extOf p) = .error id3TagsAttributeError := by
      rw [hext]
      cases audio with
      | none => rfl
      | some c => cases c <;> rfl
    have hrt : runTry true rd fs p (lrcPathOf p) (extOf p) sd =
        .error (id3TagsAttributeError, 0, fs) := by
      unfold runTry
      rw [hre]
      simp [hsl, hhe, Except.bind]
    simp only [processFile, hsd, hrt]
  · intro d rd rc rc' t fs hall
    show (runBatch true rd (walkCollect d t)
      (runBatch true rd (walkCollect d t) fs).fs).embedded = 0
    apply runBatch_embedded_zero
    intro p hp
    exact runBatch_settles rd (walkCollect d t) p (hall p hp) fs hp

/-- Witness for the amended claim C2: an already-tagged FLAC is skipped with
the file system unchanged; an MP3 with an existing lyrics frame fails its skip
check, getting its sidecar renamed without any write to the container; and a
concrete second skip run embeds nothing. -/
theorem c2_witness :
    processFile true false fsTagged "d/a.flac" = ⟨0, none, fsTagged⟩ ∧
    processFile true false fsUsltEng "d/a.mp3" =
      ⟨0, some (basename "d/a.mp3"), renameToFailed fsUsltEng (lrcPathOf "d/a.mp3")⟩ ∧
    (embedLrc "d" true false false treeOneFlac
      (embedLrc "d" true false false treeOneFlac fsTagged).fs).embedded = 0 :=
  ⟨c2_amended_skip_idempotent.1 false fsTagged "d/a.flac"
      { text := "new", readErr := none } (some (.flac [("LYRICS", "x")]))
      (by decide) (by decide) rfl rfl,
    c2_amended_skip_idempotent.2.1 false fsUsltEng "d/a.mp3"
      { text := "new", readErr := none }
      (some (.mp3 [("USLT::eng",
        { frameID := "USLT", encoding := 0, lang := "eng", desc := "", text := "old" })]))
      (by decide) (by decide) (by decide) rfl,
    c2_amended_skip_idempotent.2.2 "d" false false false treeOneFlac fsTagged (by decide)⟩
